import Mathlib

/-!
Shallow embedding of `telegramForwarder.py` (TelegramTokenAddressForwarder).

The repository has one source file.  The parts embedded here are:

* the token filter of `new_message_handler` inside
  `TelegramForwarder.setup_message_handlers`, built on
  `re.search` of the pattern  \b[a-zA-Z0-9]{43,44}\b ;
* `TelegramForwarder.get_chat_name` with its `source_entities` cache,
  the external `client.get_entity` modelled as an oracle indexed by the
  number of lookup calls performed so far (so distinct calls may
  succeed or raise independently);
* `ConfigManager.load_credentials`, `save_credentials`,
  `save_chat_config`, `load_chat_config`, with the on-disk file
  modelled as absent, unreadable (present but `json.load` raises, e.g.
  invalid JSON), or a parsed JSON object (an ordered key/value list
  with Python-dict update semantics);
* the try/except wrapper of the message callback and the client's
  event dispatch, with the fallible `send_message` call modelled as an
  explicit outcome.

Python's `\b` in unicode mode classifies word characters beyond ASCII;
the embedding fixes the ASCII reading [a-zA-Z0-9_], and the theorems
about the filter therefore carry an `asciiText` hypothesis, under which
the embedding of `\b` is exact.
-/

namespace TokenForwarder

/-- The character class [a-zA-Z0-9] of the token pattern. -/
def isAlnum (c : Char) : Bool :=
  ('a' ≤ c && c ≤ 'z') || ('A' ≤ c && c ≤ 'Z') || ('0' ≤ c && c ≤ '9')

/-- A regex word character (the class \w over ASCII): letters, digits,
underscore.  `\b` tests word-ness, not alphanumeric-ness. -/
def isWordChar (c : Char) : Bool := isAlnum c || c == '_'

/-- Texts made of ASCII characters, on which the ASCII reading of `\b`
agrees with Python's unicode one. -/
def asciiText (s : List Char) : Bool := s.all (fun c => c.toNat < 128)

/-- Whether position `i` of `s` holds a word character (out-of-range
positions count as non-word, matching the string boundaries). -/
def wordAt (s : List Char) (i : Nat) : Bool :=
  match s.get? i with
  | some c => isWordChar c
  | none => false

/-- Whether position `i` of `s` holds an ASCII alphanumeric character. -/
def alnumAt (s : List Char) (i : Nat) : Bool :=
  match s.get? i with
  | some c => isAlnum c
  | none => false

/-- `\b` holds between positions `i - 1` and `i` of `s`: the word-ness
changes there (string ends count as non-word). -/
def wordBoundary (s : List Char) (i : Nat) : Bool :=
  match i with
  | 0 => wordAt s 0
  | j + 1 => wordAt s j != wordAt s (j + 1)

/-- The `n` characters of `s` starting at position `i` all exist and are
ASCII alphanumeric. -/
def alnumRun (s : List Char) (i n : Nat) : Bool :=
  (List.range n).all (fun k => alnumAt s (i + k))

/-- The regex engine's attempt of the token pattern anchored at position
`i`: the counted repetition is greedy, so a 44-character match is tried
before a 43-character one; both ends must lie on a word boundary.
Returns the length of the match, if any. -/
def matchAt (s : List Char) (i : Nat) : Option Nat :=
  if wordBoundary s i && alnumRun s i 44 && wordBoundary s (i + 44) then some 44
  else if wordBoundary s i && alnumRun s i 43 && wordBoundary s (i + 43) then some 43
  else none

/-- `re.search` scans anchor positions left to right; `fuel` bounds the
remaining positions. -/
def searchFrom (s : List Char) : Nat → Nat → Option (Nat × Nat)
  | 0, _ => none
  | f + 1, i =>
    match matchAt s i with
    | some n => some (i, n)
    | none => searchFrom s f (i + 1)

/-- `re.search(r'\b[a-zA-Z0-9]` followed by the counted repetition 43,44
and a closing `\b` over `s`: position and length of the leftmost match. -/
def reSearch (s : List Char) : Option (Nat × Nat) :=
  searchFrom s (s.length + 1) 0

/-- The `n`-character slice of `s` starting at position `i`. -/
def sliceOf (s : List Char) (i n : Nat) : List Char := (s.drop i).take n

/-- `match.group()` of the search result, when a match exists. -/
def findToken (s : List Char) : Option (List Char) :=
  (reSearch s).map (fun p => sliceOf s p.1 p.2)

/-- The pure filtering decision of the relay callback: from the message
text (`none` models a message without text; an empty text is falsy in
the `if event.message.text:` guard) to the token forwarded verbatim to
the destination chat, if any.  `none` means no send is attempted. -/
def new_message_handler (text : Option (List Char)) : Option (List Char) :=
  match text with
  | none => none
  | some t => if t.isEmpty then none else findToken t

/-- A qualifying token occurrence as the code's regex defines it: a word
boundary, 43 or 44 ASCII alphanumeric characters, a word boundary. -/
def qualRunAt (s : List Char) (i n : Nat) : Bool :=
  (n == 43 || n == 44) && wordBoundary s i && alnumRun s i n && wordBoundary s (i + n)

/-- A maximal ASCII alphanumeric run: `L` alphanumeric characters at
position `p`, with the neighbouring positions (when inside the string)
not alphanumeric. -/
def maxAlnumRun (s : List Char) (p L : Nat) : Bool :=
  decide (0 < L) && alnumRun s p L && (p == 0 || !alnumAt s (p - 1)) && !alnumAt s (p + L)

/-- A resolved chat entity, as `get_chat_name` consumes it: it may or
may not carry a `title` attribute. -/
structure Entity where
  title : Option String
deriving DecidableEq

/-- The display name the code derives from a cached entity:
`entity.title if hasattr(entity, 'title') else f"Chat <id>"`. -/
def entityName (e : Entity) (chatId : Int) : String :=
  match e.title with
  | some t => t
  | none => "Chat " ++ toString chatId

/-- The forwarder's mutable state relevant to `get_chat_name`: the
`source_entities` cache and the number of `client.get_entity` calls
performed so far. -/
structure ForwarderState where
  source_entities : List (Int × Entity)
  lookups : Nat
deriving DecidableEq

/-- Dictionary lookup in the entity cache. -/
def cacheGet : List (Int × Entity) → Int → Option Entity
  | [], _ => none
  | (k, e) :: rest, cid => if k = cid then some e else cacheGet rest cid

/-- `TelegramForwarder.get_chat_name`: on a cache miss it calls
`client.get_entity` (the oracle `env`, indexed by the number of calls so
far; `none` models the call raising).  Only a successful lookup is
cached; a failed one returns the synthetic label and caches nothing. -/
def get_chat_name (env : Nat → Option Entity) (st : ForwarderState) (chatId : Int) :
    String × ForwarderState :=
  match cacheGet st.source_entities chatId with
  | some e => (entityName e chatId, st)
  | none =>
    match env st.lookups with
    | some e =>
        (entityName e chatId,
          ⟨(chatId, e) :: st.source_entities, st.lookups + 1⟩)
    | none => ("Chat " ++ toString chatId, ⟨st.source_entities, st.lookups + 1⟩)

/-- JSON values as the config file uses them. -/
inductive JValue where
  | jnull
  | jstr (s : String)
  | jint (n : Int)
  | jintArr (xs : List Int)
deriving DecidableEq

/-- The state of the on-disk config file: missing, present but
unreadable (`json.load` or the subsequent object access raises), or a
parsed JSON object. -/
inductive FileContent where
  | absent
  | unreadable
  | valid (obj : List (String × JValue))
deriving DecidableEq

/-- `dict.get` on the parsed object. -/
def objGet : List (String × JValue) → String → Option JValue
  | [], _ => none
  | (k, v) :: rest, key => if k = key then some v else objGet rest key

/-- Python dict item assignment: replace the value of an existing key in
place, or append a new key at the end. -/
def objSet : List (String × JValue) → String → JValue → List (String × JValue)
  | [], key, v => [(key, v)]
  | (k, w) :: rest, key, v =>
    if k = key then (key, v) :: rest else (k, w) :: objSet rest key v

/-- `ConfigManager.load_credentials`: the stored `api_id`, `api_hash`,
`phone_number`, or all-absent when the file is missing or the read
raises (the exception is caught and logged). -/
def load_credentials : FileContent → Option JValue × Option JValue × Option JValue
  | .absent => (none, none, none)
  | .unreadable => (none, none, none)
  | .valid obj => (objGet obj "api_id", objGet obj "api_hash", objGet obj "phone_number")

/-- `ConfigManager.save_credentials`: builds a fresh object holding only
the three credential fields and writes it, replacing the whole file. -/
def save_credentials (api_id api_hash phone_number : String) (_f : FileContent) :
    FileContent :=
  .valid [("api_id", .jstr api_id), ("api_hash", .jstr api_hash),
    ("phone_number", .jstr phone_number)]

/-- `ConfigManager.save_chat_config`: starts from the parsed existing
file (or an empty object when the file is absent), merges the two chat
keys and the `last_updated` timestamp (`now`), and rewrites the file.
When the existing file is unreadable, `json.load` raises before any
write, the exception is caught and logged, and the file is untouched. -/
def save_chat_config (ids : List Int) (dest : Int) (now : String) :
    FileContent → FileContent
  | .absent =>
      .valid (objSet (objSet (objSet [] "source_chat_ids" (.jintArr ids))
        "destination_chat_id" (.jint dest)) "last_updated" (.jstr now))
  | .unreadable => .unreadable
  | .valid obj =>
      .valid (objSet (objSet (objSet obj "source_chat_ids" (.jintArr ids))
        "destination_chat_id" (.jint dest)) "last_updated" (.jstr now))

/-- `ConfigManager.load_chat_config`: the stored `source_chat_ids` and
`destination_chat_id`, or both absent when the file is missing or the
read raises (the exception is caught and logged). -/
def load_chat_config : FileContent → Option JValue × Option JValue
  | .absent => (none, none)
  | .unreadable => (none, none)
  | .valid obj => (objGet obj "source_chat_ids", objGet obj "destination_chat_id")

/-- Outcome of the external `client.send_message` call: it either
succeeds or raises with some message. -/
inductive SendOutcome where
  | ok
  | raises (msg : String)
deriving DecidableEq

/-- The body of the relay callback inside its `try` block: compute the
token to forward and, when there is one, attempt the send, which may
raise.  An `Except.error` models an exception in flight. -/
def handlerBody (send : SendOutcome) (text : Option (List Char)) :
    Except String (Option (List Char)) :=
  match new_message_handler text with
  | none => .ok none
  | some tok =>
    match send with
    | .ok => .ok (some tok)
    | .raises m => .error m

/-- The installed relay callback: the `except Exception` wrapper logs
any exception of the body and returns normally. -/
def new_message_handler_callback (send : SendOutcome) (text : Option (List Char)) :
    Except String (Option (List Char)) :=
  match handlerBody send text with
  | .ok r => .ok r
  | .error _ => .ok none

/-- What one message produces when processed in isolation. -/
def processOne (send : SendOutcome) (text : Option (List Char)) : Option (List Char) :=
  match handlerBody send text with
  | .ok r => r
  | .error _ => none

/-- The client's dispatch of a stream of inbound messages (each with the
outcome its send attempt would have): messages are handed to the
callback in order, and an exception escaping the callback would abort
the whole subscription with that error. -/
def dispatchAll : List (SendOutcome × Option (List Char)) →
    Except String (List (Option (List Char)))
  | [] => .ok []
  | (so, txt) :: rest =>
    match new_message_handler_callback so txt with
    | .error e => .error e
    | .ok r =>
      match dispatchAll rest with
      | .error e => .error e
      | .ok rs => .ok (r :: rs)

/-! ### Helper lemmas about the token pattern -/

theorem wordBoundary_zero (s : List Char) : wordBoundary s 0 = wordAt s 0 := rfl

theorem wordBoundary_succ (s : List Char) (j : Nat) :
    wordBoundary s (j + 1) = (wordAt s j != wordAt s (j + 1)) := rfl

theorem alnumRun_elem {s : List Char} {i n : Nat} (h : alnumRun s i n = true)
    {k : Nat} (hk : k < n) : alnumAt s (i + k) = true := by
  simp only [alnumRun, List.all_eq_true] at h
  exact h k (List.mem_range.mpr hk)

theorem alnumRun_intro {s : List Char} {i n : Nat}
    (h : ∀ k, k < n → alnumAt s (i + k) = true) : alnumRun s i n = true := by
  simp only [alnumRun, List.all_eq_true]
  exact fun k hk => h k (List.mem_range.mp hk)

theorem wordAt_of_alnumAt {s : List Char} {i : Nat} (h : alnumAt s i = true) :
    wordAt s i = true := by
  unfold alnumAt at h
  unfold wordAt
  cases hg : s.get? i with
  | none => rw [hg] at h; cases h
  | some c =>
    rw [hg] at h
    have h' : isAlnum c = true := h
    show isWordChar c = true
    simp [isWordChar, h']

theorem alnumAt_eq_false_of_wordAt {s : List Char} {i : Nat} (h : wordAt s i = false) :
    alnumAt s i = false := by
  cases ha : alnumAt s i with
  | false => rfl
  | true => rw [wordAt_of_alnumAt ha] at h; cases h

theorem lt_length_of_alnumAt {s : List Char} {i : Nat} (h : alnumAt s i = true) :
    i < s.length := by
  by_contra hlt
  have : s.get? i = none := List.get?_eq_none.mpr (by omega)
  unfold alnumAt at h
  rw [this] at h
  cases h

/-- A qualifying occurrence is exactly what the anchored matcher accepts:
when the occurrence has length 43 the greedy 44-character attempt is
blocked by the closing word boundary. -/
theorem matchAt_of_qualRunAt {s : List Char} {i n : Nat} (h : qualRunAt s i n = true) :
    matchAt s i = some n := by
  simp only [qualRunAt, Bool.and_eq_true, Bool.or_eq_true, beq_iff_eq] at h
  obtain ⟨⟨⟨hn, hb1⟩, hrun⟩, hb2⟩ := h
  rcases hn with hn | hn
  · subst hn
    have h44 : alnumRun s i 44 = false := by
      cases har : alnumRun s i 44 with
      | false => rfl
      | true =>
        exfalso
        have hw43 : wordAt s (i + 43) = true :=
          wordAt_of_alnumAt (alnumRun_elem har (by omega))
        have hw42 : wordAt s (i + 42) = true :=
          wordAt_of_alnumAt (alnumRun_elem hrun (by omega))
        have he : wordBoundary s (i + 43) = (wordAt s (i + 42) != wordAt s (i + 43)) := rfl
        rw [he, hw42, hw43] at hb2
        cases hb2
    simp only [matchAt, hb1, hrun, hb2, h44, Bool.and_false, Bool.false_and,
      Bool.and_true, Bool.true_and, Bool.false_eq_true, if_false, if_true]
  · subst hn
    simp only [matchAt, hb1, hrun, hb2, Bool.and_true, Bool.true_and, if_true]

theorem qualRunAt_of_matchAt {s : List Char} {i n : Nat} (h : matchAt s i = some n) :
    qualRunAt s i n = true ∧ (n = 43 ∨ n = 44) := by
  unfold matchAt at h
  split at h
  · rename_i hc
    injection h with h
    subst h
    simp only [Bool.and_eq_true] at hc
    refine ⟨?_, Or.inr rfl⟩
    simp [qualRunAt, hc.1.1, hc.1.2, hc.2]
  · split at h
    · rename_i hc
      injection h with h
      subst h
      simp only [Bool.and_eq_true] at hc
      refine ⟨?_, Or.inl rfl⟩
      simp [qualRunAt, hc.1.1, hc.1.2, hc.2]
    · cases h

theorem matchAt_lt_length {s : List Char} {i n : Nat} (h : matchAt s i = some n) :
    i < s.length := by
  obtain ⟨hq, hn⟩ := qualRunAt_of_matchAt h
  simp only [qualRunAt, Bool.and_eq_true] at hq
  have h0 : alnumAt s (i + 0) = true := alnumRun_elem hq.1.2 (by omega)
  exact lt_length_of_alnumAt (by simpa using h0)

theorem searchFrom_sound (s : List Char) :
    ∀ fuel i j n, searchFrom s fuel i = some (j, n) →
      i ≤ j ∧ matchAt s j = some n ∧ ∀ k, i ≤ k → k < j → matchAt s k = none := by
  intro fuel
  induction fuel with
  | zero => intro i j n h; cases h
  | succ f ih =>
    intro i j n h
    rw [searchFrom] at h
    cases hm : matchAt s i with
    | some m =>
      rw [hm] at h
      injection h with h
      injection h with h1 h2
      subst h1; subst h2
      exact ⟨Nat.le_refl i, hm, fun k hk1 hk2 => absurd (Nat.lt_of_le_of_lt hk1 hk2) (Nat.lt_irrefl i)⟩
    | none =>
      rw [hm] at h
      obtain ⟨hij, hmj, hnone⟩ := ih (i + 1) j n h
      refine ⟨by omega, hmj, fun k hk1 hk2 => ?_⟩
      rcases Nat.eq_or_lt_of_le hk1 with hk | hk
      · rw [← hk]; exact hm
      · exact hnone k hk hk2

theorem searchFrom_isSome (s : List Char) :
    ∀ fuel i j n, i ≤ j → j < i + fuel → matchAt s j = some n →
      (searchFrom s fuel i).isSome = true := by
  intro fuel
  induction fuel with
  | zero => intro i j n h1 h2 _; omega
  | succ f ih =>
    intro i j n h1 h2 hm
    rw [searchFrom]
    cases hmi : matchAt s i with
    | some m => rfl
    | none =>
      have hij : i ≠ j := by
        intro e
        rw [e, hm] at hmi
        cases hmi
      exact ih (i + 1) j n (by omega) (by omega) hm

theorem reSearch_sound {s : List Char} {j n : Nat} (h : reSearch s = some (j, n)) :
    matchAt s j = some n ∧ ∀ k, k < j → matchAt s k = none := by
  obtain ⟨-, hmj, hnone⟩ := searchFrom_sound s (s.length + 1) 0 j n h
  exact ⟨hmj, fun k hk => hnone k (Nat.zero_le k) hk⟩

theorem reSearch_isSome {s : List Char} {j n : Nat} (h : matchAt s j = some n) :
    (reSearch s).isSome = true := by
  have hj : j < s.length := matchAt_lt_length h
  exact searchFrom_isSome s (s.length + 1) 0 j n (Nat.zero_le j) (by omega) h

theorem new_message_handler_eq_findToken {s : List Char} (hne : s ≠ []) :
    new_message_handler (some s) = findToken s := by
  cases s with
  | nil => cases hne rfl
  | cons a t => rfl

/-- A qualifying occurrence is a maximal alphanumeric run: its word
boundaries force the neighbouring characters to be non-word, hence
non-alphanumeric. -/
theorem maxAlnumRun_of_qualRunAt {s : List Char} {i n : Nat}
    (h : qualRunAt s i n = true) : maxAlnumRun s i n = true := by
  simp only [qualRunAt, Bool.and_eq_true, Bool.or_eq_true, beq_iff_eq] at h
  obtain ⟨⟨⟨hn, hb1⟩, hrun⟩, hb2⟩ := h
  have hpos : 0 < n := by omega
  have hleft : i = 0 ∨ alnumAt s (i - 1) = false := by
    cases i with
    | zero => exact Or.inl rfl
    | succ j =>
      right
      rw [wordBoundary_succ] at hb1
      have hwj1 : wordAt s (j + 1) = true := by
        have h0 : alnumAt s (j + 1 + 0) = true := alnumRun_elem hrun hpos
        exact wordAt_of_alnumAt (by simpa using h0)
      rw [hwj1] at hb1
      have : wordAt s j = false := by
        cases hw : wordAt s j with
        | false => rfl
        | true => rw [hw] at hb1; cases hb1
      simpa using alnumAt_eq_false_of_wordAt this
  have hright : alnumAt s (i + n) = false := by
    obtain ⟨n', rfl⟩ : ∃ n', n = n' + 1 := ⟨n - 1, by omega⟩
    have he : wordBoundary s (i + (n' + 1)) =
        (wordAt s (i + n') != wordAt s (i + n' + 1)) := by
      have : i + (n' + 1) = (i + n') + 1 := by omega
      rw [this, wordBoundary_succ]
    have hwn : wordAt s (i + n') = true :=
      wordAt_of_alnumAt (alnumRun_elem hrun (by omega))
    rw [he, hwn] at hb2
    have : wordAt s (i + n' + 1) = false := by
      cases hw : wordAt s (i + n' + 1) with
      | false => rfl
      | true => rw [hw] at hb2; cases hb2
    have := alnumAt_eq_false_of_wordAt this
    have he2 : i + (n' + 1) = i + n' + 1 := by omega
    rw [he2]
    exact this
  simp only [maxAlnumRun, Bool.and_eq_true, Bool.or_eq_true, beq_iff_eq,
    Bool.not_eq_true', decide_eq_true_eq]
  exact ⟨⟨⟨hpos, hrun⟩, hleft⟩, hright⟩

/-- A qualifying occurrence lying inside a maximal alphanumeric run must
be the whole run. -/
theorem qualRun_inside_maxRun {s : List Char} {p L j m : Nat}
    (hmax : maxAlnumRun s p L = true) (hq : qualRunAt s j m = true)
    (hpj : p ≤ j) (hjm : j + m ≤ p + L) : j = p ∧ m = L := by
  have hqm := maxAlnumRun_of_qualRunAt hq
  simp only [maxAlnumRun, Bool.and_eq_true, Bool.or_eq_true, beq_iff_eq,
    Bool.not_eq_true', decide_eq_true_eq] at hmax hqm
  obtain ⟨⟨⟨hL, hrunL⟩, -⟩, -⟩ := hmax
  obtain ⟨⟨⟨hm, -⟩, hleftM⟩, hrightM⟩ := hqm
  have hjp : j = p := by
    by_contra hne
    have hpj' : p < j := by omega
    have hj1 : alnumAt s (j - 1) = true := by
      have h1 := alnumRun_elem hrunL (show j - 1 - p < L by omega)
      have e : p + (j - 1 - p) = j - 1 := by omega
      rwa [e] at h1
    rcases hleftM with h0 | hfalse
    · omega
    · rw [hj1] at hfalse; cases hfalse
  refine ⟨hjp, ?_⟩
  by_contra hne
  have hlt : j + m < p + L := by omega
  have hin : alnumAt s (j + m) = true := by
    have h1 := alnumRun_elem hrunL (show j + m - p < L by omega)
    have e : p + (j + m - p) = j + m := by omega
    rwa [e] at h1
  rw [hin] at hrightM
  cases hrightM

/-! ### Helper lemmas about the config object -/

theorem objGet_objSet_same (o : List (String × JValue)) (k : String) (v : JValue) :
    objGet (objSet o k v) k = some v := by
  induction o with
  | nil => simp [objSet, objGet]
  | cons p rest ih =>
    obtain ⟨k', v'⟩ := p
    by_cases hk : k' = k
    · subst hk; simp [objSet, objGet]
    · simp [objSet, objGet, hk, ih]

theorem objGet_objSet_other (o : List (String × JValue)) (k key : String) (v : JValue)
    (hne : k ≠ key) : objGet (objSet o k v) key = objGet o key := by
  induction o with
  | nil => simp [objSet, objGet, hne]
  | cons p rest ih =>
    obtain ⟨k', v'⟩ := p
    by_cases hk : k' = k
    · subst hk; simp [objSet, objGet, hne]
    · simp [objSet, objGet, hk, ih]

/-! ### The claims -/

/-- C1: on ASCII text, whenever the message contains a word-boundary
delimited run of exactly 43 or 44 ASCII alphanumeric characters, the
relay callback forwards exactly such a run, character for character
(the forwarded token is a verbatim slice of the text and is itself a
qualifying run); every forwarded token is a maximal alphanumeric run of
length 43 or 44, and no position inside a maximal alphanumeric run of
length at most 42 or at least 45 carries a qualifying run, so such runs
are never matched nor forwarded, neither whole nor as a 43/44-character
substring. -/
theorem relay_forwards_exact_43_44_runs (s : List Char) (hascii : asciiText s = true) :
    (∀ i n, qualRunAt s i n = true →
      ∃ j m, new_message_handler (some s) = some (sliceOf s j m) ∧ qualRunAt s j m = true)
    ∧ (∀ w, new_message_handler (some s) = some w →
      ∃ j m, w = sliceOf s j m ∧ qualRunAt s j m = true ∧ maxAlnumRun s j m = true
        ∧ (m = 43 ∨ m = 44))
    ∧ (∀ p L, maxAlnumRun s p L = true → (L ≤ 42 ∨ 45 ≤ L) →
      ∀ j m, p ≤ j → j + m ≤ p + L → qualRunAt s j m = false) := by
  refine ⟨?_, ?_, ?_⟩
  · intro i n hq
    have hmi : matchAt s i = some n := matchAt_of_qualRunAt hq
    have hne : s ≠ [] := by
      intro e
      have hlen := matchAt_lt_length hmi
      subst e
      simp at hlen
    have hsome := reSearch_isSome hmi
    obtain ⟨⟨j, m⟩, hr⟩ := Option.isSome_iff_exists.mp hsome
    refine ⟨j, m, ?_, (qualRunAt_of_matchAt (reSearch_sound hr).1).1⟩
    rw [new_message_handler_eq_findToken hne]
    unfold findToken
    rw [hr]
    rfl
  · intro w hw
    cases s with
    | nil => simp [new_message_handler] at hw
    | cons a t =>
      rw [new_message_handler_eq_findToken (by simp)] at hw
      unfold findToken at hw
      cases hr : reSearch (a :: t) with
      | none => rw [hr] at hw; cases hw
      | some p =>
        obtain ⟨j, m⟩ := p
        rw [hr] at hw
        simp only [Option.map_some'] at hw
        injection hw with hw
        have hmj := (reSearch_sound hr).1
        obtain ⟨hq, hn⟩ := qualRunAt_of_matchAt hmj
        exact ⟨j, m, hw.symm, hq, maxAlnumRun_of_qualRunAt hq, hn⟩
  · intro p L hmax hbad j m hpj hjm
    cases hq : qualRunAt s j m with
    | false => rfl
    | true =>
      exfalso
      obtain ⟨hjp, hmL⟩ := qualRun_inside_maxRun hmax hq hpj hjm
      have hn : m = 43 ∨ m = 44 := by
        simp only [qualRunAt, Bool.and_eq_true, Bool.or_eq_true, beq_iff_eq] at hq
        exact hq.1.1.1
      omega

/-- C2: on ASCII text, the relay callback attempts at most one send per
message: a forwarded token is the verbatim slice at a qualifying run to
the left of which no position carries any qualifying run (the leftmost
match); when the text has no qualifying run the callback forwards
nothing, and a message without text forwards nothing. -/
theorem relay_at_most_first_match (s : List Char) (hascii : asciiText s = true) :
    (∀ w, new_message_handler (some s) = some w →
      ∃ j m, w = sliceOf s j m ∧ qualRunAt s j m = true
        ∧ ∀ k, k < j → ∀ n, qualRunAt s k n = false)
    ∧ ((∀ k n, qualRunAt s k n = false) → new_message_handler (some s) = none)
    ∧ new_message_handler none = none := by
  refine ⟨?_, ?_, rfl⟩
  · intro w hw
    cases s with
    | nil => simp [new_message_handler] at hw
    | cons a t =>
      rw [new_message_handler_eq_findToken (by simp)] at hw
      unfold findToken at hw
      cases hr : reSearch (a :: t) with
      | none => rw [hr] at hw; cases hw
      | some p =>
        obtain ⟨j, m⟩ := p
        rw [hr] at hw
        simp only [Option.map_some'] at hw
        injection hw with hw
        obtain ⟨hmj, hmin⟩ := reSearch_sound hr
        refine ⟨j, m, hw.symm, (qualRunAt_of_matchAt hmj).1, ?_⟩
        intro k hk n
        cases hqk : qualRunAt (a :: t) k n with
        | false => rfl
        | true =>
          have hball := matchAt_of_qualRunAt hqk
          rw [hmin k hk] at hball
          cases hball
  · intro hnone
    cases s with
    | nil => rfl
    | cons a t =>
      rw [new_message_handler_eq_findToken (by simp)]
      unfold findToken
      cases hr : reSearch (a :: t) with
      | none => rfl
      | some p =>
        exfalso
        obtain ⟨j, m⟩ := p
        have hmj := (reSearch_sound hr).1
        have hq := (qualRunAt_of_matchAt hmj).1
        rw [hnone j m] at hq
        cases hq

/-- C3 counterexample: the text made of an underscore followed by 43
letters contains a 43-character ASCII alphanumeric run (at position 1)
that is immediately adjacent to a non-alphanumeric character (the
underscore) on its left and the string boundary on its right, yet the
relay callback forwards nothing: the regex `\b` treats the underscore as
a word character, so no word boundary lies between it and the run. -/
theorem underscore_adjacent_run_unmatched_cex :
    isAlnum '_' = false
    ∧ alnumRun ('_' :: List.replicate 43 'a') 1 43 = true
    ∧ ('_' :: List.replicate 43 'a').length = 44
    ∧ new_message_handler (some ('_' :: List.replicate 43 'a')) = none := by decide

/-- C3 amended: on ASCII text, a 43/44-character ASCII alphanumeric run
qualifies exactly when each side is bounded by a non-word character
(neither alphanumeric nor underscore) or a string boundary; a run whose
left neighbour is a word character — an underscore in particular — is
not matched at all. -/
theorem token_qualification_nonword_delimiters (s : List Char)
    (hascii : asciiText s = true) (i n : Nat) :
    (qualRunAt s i n = true ↔
      ((n = 43 ∨ n = 44) ∧ alnumRun s i n = true
        ∧ (i = 0 ∨ wordAt s (i - 1) = false) ∧ wordAt s (i + n) = false))
    ∧ (alnumRun s i n = true → 0 < n → 0 < i → wordAt s (i - 1) = true →
        matchAt s i = none) := by
  constructor
  · constructor
    · intro hq
      simp only [qualRunAt, Bool.and_eq_true, Bool.or_eq_true, beq_iff_eq] at hq
      obtain ⟨⟨⟨hn, hb1⟩, hrun⟩, hb2⟩ := hq
      have hpos : 0 < n := by omega
      refine ⟨hn, hrun, ?_, ?_⟩
      · cases i with
        | zero => exact Or.inl rfl
        | succ j =>
          right
          rw [wordBoundary_succ] at hb1
          have hwj1 : wordAt s (j + 1) = true := by
            have h0 : alnumAt s (j + 1 + 0) = true := alnumRun_elem hrun hpos
            exact wordAt_of_alnumAt (by simpa using h0)
          rw [hwj1] at hb1
          cases hw : wordAt s j with
          | false => exact hw
          | true => rw [hw] at hb1; cases hb1
      · obtain ⟨n', rfl⟩ : ∃ q, n = q + 1 := ⟨n - 1, by omega⟩
        have he : wordBoundary s (i + (n' + 1)) =
            (wordAt s (i + n') != wordAt s (i + n' + 1)) := by
          have e : i + (n' + 1) = (i + n') + 1 := by omega
          rw [e, wordBoundary_succ]
        have hwn : wordAt s (i + n') = true :=
          wordAt_of_alnumAt (alnumRun_elem hrun (by omega))
        rw [he, hwn] at hb2
        cases hw : wordAt s (i + n' + 1) with
        | false =>
          have e : i + (n' + 1) = i + n' + 1 := by omega
          rw [e]
          exact hw
        | true => rw [hw] at hb2; cases hb2
    · rintro ⟨hn, hrun, hleft, hright⟩
      have hpos : 0 < n := by omega
      have hb1 : wordBoundary s i = true := by
        cases i with
        | zero =>
          rw [wordBoundary_zero]
          have h0 : alnumAt s (0 + 0) = true := alnumRun_elem hrun hpos
          exact wordAt_of_alnumAt (by simpa using h0)
        | succ j =>
          rw [wordBoundary_succ]
          rcases hleft with h0 | hw
          · exact absurd h0 (by omega)
          · have hwj1 : wordAt s (j + 1) = true := by
              have h0 : alnumAt s (j + 1 + 0) = true := alnumRun_elem hrun hpos
              exact wordAt_of_alnumAt (by simpa using h0)
            have hwj : wordAt s j = false := hw
            rw [hwj, hwj1]
            rfl
      have hb2 : wordBoundary s (i + n) = true := by
        obtain ⟨n', rfl⟩ : ∃ q, n = q + 1 := ⟨n - 1, by omega⟩
        have e : i + (n' + 1) = (i + n') + 1 := by omega
        rw [e, wordBoundary_succ]
        have hwn : wordAt s (i + n') = true :=
          wordAt_of_alnumAt (alnumRun_elem hrun (by omega))
        have hr2 : wordAt s (i + n' + 1) = false := by
          rw [← e]
          exact hright
        rw [hwn, hr2]
        rfl
      rcases hn with rfl | rfl <;> simp [qualRunAt, hb1, hb2, hrun]
  · intro hrun hpos hipos hw
    have hwi : wordAt s i = true := by
      have h0 : alnumAt s (i + 0) = true := alnumRun_elem hrun hpos
      exact wordAt_of_alnumAt (by simpa using h0)
    have hb : wordBoundary s i = false := by
      obtain ⟨j, rfl⟩ : ∃ j, i = j + 1 := ⟨i - 1, by omega⟩
      rw [wordBoundary_succ]
      have hwj : wordAt s j = true := hw
      rw [hwj, hwi]
      rfl
    simp [matchAt, hb]

/-- C4 counterexample: with an external client whose first `get_entity`
call raises and whose second succeeds with a titled entity, the first
`get_chat_name` call returns the synthetic label after one lookup, and a
second call with the same chat ID performs an additional lookup (two in
total) and returns a different name: a failed lookup caches nothing. -/
theorem get_chat_name_retries_after_failure_cex :
    (get_chat_name (fun k => if k = 0 then none else some ⟨some "T"⟩) ⟨[], 0⟩ 5).1
      = "Chat 5"
    ∧ (get_chat_name (fun k => if k = 0 then none else some ⟨some "T"⟩) ⟨[], 0⟩ 5).2.lookups
      = 1
    ∧ (get_chat_name (fun k => if k = 0 then none else some ⟨some "T"⟩)
        (get_chat_name (fun k => if k = 0 then none else some ⟨some "T"⟩) ⟨[], 0⟩ 5).2
        5).2.lookups = 2
    ∧ (get_chat_name (fun k => if k = 0 then none else some ⟨some "T"⟩)
        (get_chat_name (fun k => if k = 0 then none else some ⟨some "T"⟩) ⟨[], 0⟩ 5).2
        5).1 = "T"
    ∧ ("T" : String) ≠ "Chat 5" := by decide

/-- C4 amended: `get_chat_name` is idempotent and performs no further
`get_entity` call once the chat ID is cached, in particular whenever the
first lookup succeeds (or the ID was already cached): the second call
returns the same name and leaves the state — cache and lookup count —
unchanged.  (After a failed lookup nothing is cached and a later call
retries the external lookup.) -/
theorem get_chat_name_idempotent_after_success (env : Nat → Option Entity)
    (st : ForwarderState) (chatId : Int)
    (h : (cacheGet st.source_entities chatId).isSome = true
      ∨ (env st.lookups).isSome = true) :
    get_chat_name env (get_chat_name env st chatId).2 chatId
      = get_chat_name env st chatId := by
  cases hc : cacheGet st.source_entities chatId with
  | some e => simp [get_chat_name, hc]
  | none =>
    cases he : env st.lookups with
    | none =>
      rcases h with h | h
      · rw [hc] at h; cases h
      · rw [he] at h; cases h
    | some e => simp [get_chat_name, hc, he, cacheGet]

/-- C5 counterexample: with an unreadable existing config file,
`save_chat_config` writes nothing and a following `load_chat_config`
returns the all-absent pair, not the pair just saved. -/
theorem save_then_load_chat_config_cex :
    load_chat_config (save_chat_config [1] 2 "t" FileContent.unreadable) = (none, none)
    ∧ ((none, none) : Option JValue × Option JValue)
      ≠ (some (JValue.jintArr [1]), some (JValue.jint 2)) := by decide

/-- C5 amended: provided the prior config file is absent or holds a
readable JSON object, `save_chat_config` followed by `load_chat_config`
returns exactly the pair just saved; when the prior file is unreadable
the save writes nothing and the load returns the all-absent pair. -/
theorem save_then_load_chat_config (ids : List Int) (dest : Int) (now : String)
    (f : FileContent) (h : f ≠ FileContent.unreadable) :
    load_chat_config (save_chat_config ids dest now f)
      = (some (JValue.jintArr ids), some (JValue.jint dest)) := by
  cases f with
  | unreadable => cases h rfl
  | absent =>
    simp only [save_chat_config, load_chat_config]
    rw [objGet_objSet_other _ _ _ _ (by decide), objGet_objSet_other _ _ _ _ (by decide),
      objGet_objSet_same, objGet_objSet_other _ _ _ _ (by decide), objGet_objSet_same]
  | valid obj =>
    simp only [save_chat_config, load_chat_config]
    rw [objGet_objSet_other _ _ _ _ (by decide), objGet_objSet_other _ _ _ _ (by decide),
      objGet_objSet_same, objGet_objSet_other _ _ _ _ (by decide), objGet_objSet_same]

/-- C6: for every readable existing file object, `save_chat_config`
rewrites the file with the credential fields unchanged, the two chat
fields set to the arguments, and `last_updated` refreshed to the current
timestamp. -/
theorem save_chat_config_preserves_credentials (obj : List (String × JValue))
    (ids : List Int) (dest : Int) (now : String) :
    ∃ obj2, save_chat_config ids dest now (.valid obj) = .valid obj2
      ∧ objGet obj2 "api_id" = objGet obj "api_id"
      ∧ objGet obj2 "api_hash" = objGet obj "api_hash"
      ∧ objGet obj2 "phone_number" = objGet obj "phone_number"
      ∧ objGet obj2 "source_chat_ids" = some (.jintArr ids)
      ∧ objGet obj2 "destination_chat_id" = some (.jint dest)
      ∧ objGet obj2 "last_updated" = some (.jstr now) := by
  refine ⟨_, rfl, ?_, ?_, ?_, ?_, ?_, ?_⟩
  · rw [objGet_objSet_other _ _ _ _ (by decide), objGet_objSet_other _ _ _ _ (by decide),
      objGet_objSet_other _ _ _ _ (by decide)]
  · rw [objGet_objSet_other _ _ _ _ (by decide), objGet_objSet_other _ _ _ _ (by decide),
      objGet_objSet_other _ _ _ _ (by decide)]
  · rw [objGet_objSet_other _ _ _ _ (by decide), objGet_objSet_other _ _ _ _ (by decide),
      objGet_objSet_other _ _ _ _ (by decide)]
  · rw [objGet_objSet_other _ _ _ _ (by decide), objGet_objSet_other _ _ _ _ (by decide),
      objGet_objSet_same]
  · rw [objGet_objSet_other _ _ _ _ (by decide), objGet_objSet_same]
  · rw [objGet_objSet_same]

/-- C7 counterexample: with a prior file holding the three
chat-configuration fields, `save_credentials` rewrites the file to hold
exactly the three credential fields: `source_chat_ids`,
`destination_chat_id` and `last_updated` are dropped, not preserved. -/
theorem save_credentials_drops_chat_fields_cex :
    save_credentials "a" "h" "+100"
        (.valid [("source_chat_ids", .jintArr [1]), ("destination_chat_id", .jint 2),
          ("last_updated", .jstr "t")])
      = .valid [("api_id", .jstr "a"), ("api_hash", .jstr "h"),
          ("phone_number", .jstr "+100")]
    ∧ objGet [("api_id", JValue.jstr "a"), ("api_hash", JValue.jstr "h"),
        ("phone_number", JValue.jstr "+100")] "source_chat_ids" = none
    ∧ objGet [("source_chat_ids", JValue.jintArr [1]), ("destination_chat_id", JValue.jint 2),
        ("last_updated", JValue.jstr "t")] "source_chat_ids"
      = some (JValue.jintArr [1]) := by decide

/-- C7 amended: `save_credentials` replaces the whole file content with
exactly the three credential fields (set to its arguments); whatever the
prior content, afterwards the chat-configuration fields are absent and
`load_chat_config` returns the all-absent pair. -/
theorem save_credentials_overwrites_whole_file (api_id api_hash phone_number : String)
    (f : FileContent) :
    save_credentials api_id api_hash phone_number f
      = .valid [("api_id", .jstr api_id), ("api_hash", .jstr api_hash),
          ("phone_number", .jstr phone_number)]
    ∧ load_chat_config (save_credentials api_id api_hash phone_number f) = (none, none)
    ∧ load_credentials (save_credentials api_id api_hash phone_number f)
      = (some (.jstr api_id), some (.jstr api_hash), some (.jstr phone_number)) :=
  ⟨rfl, rfl, rfl⟩

/-- C8: the ConfigStore loaders are total and never propagate an error:
`load_credentials` returns the all-absent triple on a missing or
unreadable file and the stored (possibly absent) values on a readable
one; `load_chat_config` returns the all-absent pair on a missing file,
an unreadable file, or a readable file missing both keys. -/
theorem loaders_never_raise (obj : List (String × JValue)) :
    load_credentials FileContent.absent = (none, none, none)
    ∧ load_credentials FileContent.unreadable = (none, none, none)
    ∧ load_credentials (.valid obj)
      = (objGet obj "api_id", objGet obj "api_hash", objGet obj "phone_number")
    ∧ load_chat_config FileContent.absent = (none, none)
    ∧ load_chat_config FileContent.unreadable = (none, none)
    ∧ ((objGet obj "source_chat_ids" = none ∧ objGet obj "destination_chat_id" = none) →
        load_chat_config (.valid obj) = (none, none)) := by
  refine ⟨rfl, rfl, rfl, rfl, rfl, ?_⟩
  rintro ⟨h1, h2⟩
  simp [load_chat_config, h1, h2]

theorem loaders_never_raise_witness :
    (objGet [] "source_chat_ids" = none ∧ objGet [] "destination_chat_id" = none)
    ∧ load_chat_config (.valid []) = (none, none) :=
  ⟨⟨rfl, rfl⟩, (loaders_never_raise []).2.2.2.2.2 ⟨rfl, rfl⟩⟩

/-- C9: the relay callback catches every exception of its body (in the
model, a raising send): it always returns normally, producing exactly
what that message alone determines, and the event dispatch over any
stream of messages therefore never aborts — every message is processed
and the outcome of each depends only on that message. -/
theorem callback_isolates_message_failures
    (msgs : List (SendOutcome × Option (List Char))) :
    (∀ so txt, new_message_handler_callback so txt = .ok (processOne so txt))
    ∧ dispatchAll msgs = .ok (msgs.map (fun m => processOne m.1 m.2)) := by
  have hcb : ∀ so txt, new_message_handler_callback so txt = .ok (processOne so txt) := by
    intro so txt
    unfold new_message_handler_callback processOne
    cases handlerBody so txt <;> rfl
  refine ⟨hcb, ?_⟩
  induction msgs with
  | nil => rfl
  | cons m rest ih =>
    obtain ⟨so, txt⟩ := m
    simp [dispatchAll, hcb, ih]

/-- C10: when the existing config file is unreadable, `save_chat_config`
catches the read error and performs no write: the file content after the
call is exactly what it was before. -/
theorem save_chat_config_no_write_on_unreadable (ids : List Int) (dest : Int)
    (now : String) :
    save_chat_config ids dest now FileContent.unreadable = FileContent.unreadable := rfl

theorem relay_forwards_exact_43_44_runs_witness :
    asciiText (List.replicate 43 'a') = true
    ∧ ((∀ i n, qualRunAt (List.replicate 43 'a') i n = true →
        ∃ j m, new_message_handler (some (List.replicate 43 'a'))
            = some (sliceOf (List.replicate 43 'a') j m)
          ∧ qualRunAt (List.replicate 43 'a') j m = true)
      ∧ (∀ w, new_message_handler (some (List.replicate 43 'a')) = some w →
        ∃ j m, w = sliceOf (List.replicate 43 'a') j m
          ∧ qualRunAt (List.replicate 43 'a') j m = true
          ∧ maxAlnumRun (List.replicate 43 'a') j m = true
          ∧ (m = 43 ∨ m = 44))
      ∧ (∀ p L, maxAlnumRun (List.replicate 43 'a') p L = true → (L ≤ 42 ∨ 45 ≤ L) →
        ∀ j m, p ≤ j → j + m ≤ p + L → qualRunAt (List.replicate 43 'a') j m = false)) :=
  ⟨by decide, relay_forwards_exact_43_44_runs (List.replicate 43 'a') (by decide)⟩

theorem relay_at_most_first_match_witness :
    asciiText (' ' :: List.replicate 44 'b') = true
    ∧ ((∀ w, new_message_handler (some (' ' :: List.replicate 44 'b')) = some w →
        ∃ j m, w = sliceOf (' ' :: List.replicate 44 'b') j m
          ∧ qualRunAt (' ' :: List.replicate 44 'b') j m = true
          ∧ ∀ k, k < j → ∀ n, qualRunAt (' ' :: List.replicate 44 'b') k n = false)
      ∧ ((∀ k n, qualRunAt (' ' :: List.replicate 44 'b') k n = false) →
          new_message_handler (some (' ' :: List.replicate 44 'b')) = none)
      ∧ new_message_handler none = none) :=
  ⟨by decide, relay_at_most_first_match (' ' :: List.replicate 44 'b') (by decide)⟩

theorem token_qualification_nonword_delimiters_witness :
    asciiText (List.replicate 44 'c') = true
    ∧ ((qualRunAt (List.replicate 44 'c') 0 44 = true ↔
        ((44 = 43 ∨ 44 = 44) ∧ alnumRun (List.replicate 44 'c') 0 44 = true
          ∧ (0 = 0 ∨ wordAt (List.replicate 44 'c') (0 - 1) = false)
          ∧ wordAt (List.replicate 44 'c') (0 + 44) = false))
      ∧ (alnumRun (List.replicate 44 'c') 0 44 = true → 0 < 44 → 0 < 0 →
          wordAt (List.replicate 44 'c') (0 - 1) = true →
          matchAt (List.replicate 44 'c') 0 = none)) :=
  ⟨by decide, token_qualification_nonword_delimiters (List.replicate 44 'c') (by decide) 0 44⟩

theorem get_chat_name_idempotent_after_success_witness :
    ((cacheGet (⟨[], 0⟩ : ForwarderState).source_entities 7).isSome = true
      ∨ ((fun _ => some (⟨some "Src"⟩ : Entity))
          (⟨[], 0⟩ : ForwarderState).lookups).isSome = true)
    ∧ get_chat_name (fun _ => some ⟨some "Src"⟩)
        (get_chat_name (fun _ => some ⟨some "Src"⟩) ⟨[], 0⟩ 7).2 7
      = get_chat_name (fun _ => some ⟨some "Src"⟩) ⟨[], 0⟩ 7 :=
  ⟨Or.inr rfl,
    get_chat_name_idempotent_after_success (fun _ => some ⟨some "Src"⟩) ⟨[], 0⟩ 7
      (Or.inr rfl)⟩

theorem save_then_load_chat_config_witness :
    FileContent.absent ≠ FileContent.unreadable
    ∧ load_chat_config (save_chat_config [11, 22] 99 "2026-10-12" FileContent.absent)
      = (some (JValue.jintArr [11, 22]), some (JValue.jint 99)) :=
  ⟨by decide, save_then_load_chat_config [11, 22] 99 "2026-10-12" FileContent.absent
    (by decide)⟩

end TokenForwarder
